import Mathlib

/-!
# Verification of `car_ans/spider_all_detials.py`

A shallow embedding of the car-spec scraper's core logic and proofs of its
specified properties.  Python dicts (the per-model records) are modelled as
insertion-ordered association lists; BeautifulSoup documents are modelled by
a structure holding exactly the pieces of the page the code queries; the
fallible parts of the extraction run in `Except` with the source's outer
`try/except` as a catch at the top.
-/

namespace CarAns

/-- A vehicle record: Python `dict` from attribute label to value, modelled
as an insertion-ordered association list (keys are unique in any record the
program builds, since `rset` updates the first occurrence in place). -/
abbrev Record := List (String × String)

/-- `d.get(k)` / `d[k]`-as-Option: value bound to `k`, if any. -/
def rget : Record → String → Option String
  | [], _ => none
  | p :: r, k => if p.1 = k then some p.2 else rget r k

/-- `d.get(k, dflt)`. -/
def rgetD (r : Record) (k : String) (dflt : String) : String :=
  (rget r k).getD dflt

/-- `d[k] = v`: update in place when the key exists (keeping its position,
as Python dicts do) and append otherwise. -/
def rset : Record → String → String → Record
  | [], k, v => [(k, v)]
  | p :: r, k, v => if p.1 = k then (k, v) :: r else p :: rset r k v

/-- The keys of a record, as a finite set (`model.keys()` fed to `set.update`). -/
def recKeys (r : Record) : Finset String :=
  (r.map (fun p => p.1)).toFinset

@[simp] theorem rget_nil (k : String) : rget [] k = none := rfl

@[simp] theorem rget_rset_self (r : Record) (k v : String) :
    rget (rset r k v) k = some v := by
  induction r with
  | nil => simp [rset, rget]
  | cons p r ih =>
    by_cases h : p.1 = k
    · simp [rset, rget, h]
    · simp [rset, rget, h, ih]

@[simp] theorem rget_rset_ne (r : Record) (k k' v : String) (hne : k' ≠ k) :
    rget (rset r k v) k' = rget r k' := by
  have hne' : ¬ (k = k') := fun h => hne h.symm
  induction r with
  | nil => simp [rset, rget, hne']
  | cons p r ih =>
    by_cases h : p.1 = k
    · have h2 : ¬ (p.1 = k') := by rw [h]; exact hne'
      rw [rset, if_pos h, rget, if_neg hne', rget, if_neg h2]
    · by_cases h' : p.1 = k'
      · rw [rset, if_neg h, rget, if_pos h', rget, if_pos h']
      · rw [rset, if_neg h, rget, if_neg h', rget, if_neg h', ih]

@[simp] theorem length_rset (r : Record) (k v : String) :
    (rset r k v).length = if (rget r k).isSome then r.length else r.length + 1 := by
  induction r with
  | nil => simp [rset, rget]
  | cons p r ih =>
    by_cases h : p.1 = k
    · simp [rset, rget, h]
    · simp only [rset, rget, if_neg h, List.length_cons, ih]
      by_cases hs : (rget r k).isSome <;> simp [hs]

/-! ## Static configuration (lines 13, 17-32 of the source) -/

/-- `retry_times = 3`. -/
def retry_times : Nat := 3

/-- `ENERGY_TYPE_MAP`: energy-type label to its type-specific field keys. -/
def ENERGY_TYPE_MAP : List (String × List String) :=
  [ ("纯电", ["electric_consumption", "battery_capacity", "cltc_recharge_mileage"]),
    ("汽油", ["engine_max_horsepower", "fuel_consumption", "displacement"]),
    ("油电混合", ["engine_max_horsepower", "battery_capacity", "electric_consumption"]),
    ("插电式", ["engine_max_horsepower", "battery_capacity", "electric_consumption"]),
    ("增程式", ["range_extender_type", "battery_capacity", "electric_consumption"]) ]

/-- `ENERGY_TYPES`: energy-type label to output-file slug. -/
def ENERGY_TYPES : List (String × String) :=
  [ ("纯电", "electric"),
    ("汽油", "fuel"),
    ("油电混合", "hybrid"),
    ("插电式", "plug-in"),
    ("增程式", "range-extender"),
    ("未知", "unknown") ]

/-- `get_energy_specific_fields(energy_type)` = `ENERGY_TYPE_MAP.get(energy_type, [])`. -/
def get_energy_specific_fields (energy_type : String) : List String :=
  ((ENERGY_TYPE_MAP.find? (fun p => p.1 = energy_type)).map (fun p => p.2)).getD []

/-! ## Glyph and price cleaning (the two `re.sub` calls) -/

/-- A character matched by the class `[-●○※]`: a private-use-area
icon codepoint or one of the three decorative marks. -/
def isStrippedGlyph (c : Char) : Bool :=
  (0xe600 ≤ c.toNat && c.toNat ≤ 0xe6ff) || c = '●' || c = '○' || c = '※'

/-- The scan of `re.sub(r'[-●○※]', '', s)`: walk the string,
dropping every matching character and keeping the rest. -/
def cleanChars : List Char → List Char
  | [] => []
  | c :: cs => if isStrippedGlyph c then cleanChars cs else c :: cleanChars cs

/-- `re.sub(r'[-●○※]', '', s)`. -/
def clean_glyphs (s : String) : String :=
  String.mk (cleanChars s.data)

/-- A character kept by `re.sub(r'[^\d\.万]', '', s)`: digit, dot, or `万`. -/
def isPriceKept (c : Char) : Bool :=
  c.isDigit || c = '.' || c = '万'

/-- The scan of `re.sub(r'[^\d\.万]', '', s)`. -/
def cleanPriceChars : List Char → List Char
  | [] => []
  | c :: cs => if isPriceKept c then c :: cleanPriceChars cs else cleanPriceChars cs

/-- Line 79: `re.sub(r'[^\d\.万]', '', text) + '万'`. -/
def clean_price (s : String) : String :=
  String.mk (cleanPriceChars s.data) ++ "万"

/-! ## Document model

`parse_models_config` interrogates the BeautifulSoup document through a fixed
set of selector queries; the model records the result of each query.
-/

/-- One model column of the table header (the selector
`div.table_is-head-col__1sAQG:not(:first-child)` already excludes the first,
label column).  `nameText?` is the text of
`col.select_one('a.cell_car__28WzZ, div.cell_car__28WzZ')`, when that
element exists. -/
structure ModelCol where
  nameText? : Option String
  deriving DecidableEq, Repr

/-- One attribute row carrying `data-row-anchor`.  `labelText?` is the
`.cell_label__ZtXlw` element's text; `none` models a missing label element,
on which `select_one(...).get_text(...)` raises `AttributeError`.
`cells` are the texts of the `div.cell_normal__37nRi` value cells. -/
structure AttrRow where
  labelText? : Option String
  cells : List String
  deriving DecidableEq, Repr

/-- One configuration section (`div.table_root__14vH_:not(:first-child)` —
the first, header/price section is already excluded by the selector). -/
structure TableSection where
  rows : List AttrRow
  deriving DecidableEq, Repr

/-- The price query: `soup.find('div', class_='cell_official-price__1O2th')`
found a cell; `parentCells?` is `none` when `find_parent('div',
class_='table_row__yVX1h')` returns `None` (then `.select` on `None` raises),
otherwise the texts of the price cells of that row. -/
structure PriceInfo where
  parentCells? : Option (List String)
  deriving DecidableEq, Repr

/-- A parsed page, as seen through the queries of `parse_models_config`.
`header?` is `none` when `soup.find('div', class_='table_head__FNAvn')`
finds nothing; otherwise it carries the model columns. -/
structure Doc where
  header? : Option (List ModelCol)
  price? : Option PriceInfo
  sections : List TableSection
  deriving DecidableEq, Repr

/-! ## The extractor `parse_models_config` (lines 56-103) -/

/-- Line 67's list element: `{"型号": "未知车型", "价格": "N/A"}`. -/
def initModel : Record := [("型号", "未知车型"), ("价格", "N/A")]

/-- Lines 67-72: one pre-seeded record per model column, with `型号`
overwritten by the cleaned name text when the name element exists. -/
def seedModels (cols : List ModelCol) : List Record :=
  cols.map (fun col =>
    match col.nameText? with
    | some t => rset initModel "型号" (clean_glyphs t)
    | none => initModel)

/-- Lines 78-79: `for idx, cell in enumerate(price_cells[:len(models)]):
models[idx]["价格"] = ...` — update a prefix of the records, leave the rest. -/
def applyPrices : List Record → List String → List Record
  | [], _ => []
  | ms, [] => ms
  | m :: ms, c :: cs => rset m "价格" (clean_price c) :: applyPrices ms cs

/-- Lines 88-90: `for idx, cell in enumerate(cells[:len(models)]):
models[idx][label] = cleaned` — update a prefix of the records. -/
def applyRowCells (label : String) : List Record → List String → List Record
  | [], _ => []
  | ms, [] => ms
  | m :: ms, c :: cs => rset m label (clean_glyphs c) :: applyRowCells label ms cs

/-- Lines 83-90, one section: each row reads its label cell (raising when the
label element is missing) and assigns its cleaned value cells column-wise. -/
def applyRows (ms : List Record) : List AttrRow → Except String (List Record)
  | [] => .ok ms
  | row :: rest =>
    match row.labelText? with
    | none => .error "AttributeError: NoneType has no attribute get_text"
    | some label => applyRows (applyRowCells label ms row.cells) rest

/-- Lines 81-90: fold `applyRows` over the configuration sections. -/
def applySections (ms : List Record) : List TableSection → Except String (List Record)
  | [] => .ok ms
  | s :: ss =>
    match applyRows ms s.rows with
    | .error e => .error e
    | .ok ms' => applySections ms' ss

/-- Lines 92-97: fill in the energy-type-specific catalog fields,
`model[field] = model.get(field, "N/A")`. -/
def normalize_record (m : Record) : Record :=
  let energy_type := rgetD m "能源类型" "N/A"
  (get_energy_specific_fields energy_type).foldl
    (fun acc field => rset acc field (rgetD acc field "N/A")) m

/-- The body of the `try` block of `parse_models_config` (lines 58-97):
everything that can raise runs in `Except`. -/
def parse_models_config_exc (doc : Doc) : Except String (List Record) :=
  match doc.header? with
  | none => .ok []
  | some cols =>
    if cols.isEmpty then .ok []
    else
      let ms := seedModels cols
      let step5 : Except String (List Record) :=
        match doc.price? with
        | none => .ok ms
        | some pi =>
          match pi.parentCells? with
          | none => .error "AttributeError: NoneType has no attribute select"
          | some cells => .ok (applyPrices ms cells)
      match step5 with
      | .error e => .error e
      | .ok ms' =>
        match applySections ms' doc.sections with
        | .error e => .error e
        | .ok ms'' => .ok (ms''.map normalize_record)

/-- `parse_models_config(soup)`: the `try/except` wrapper — any exception is
caught and an empty list returned (lines 99-101). -/
def parse_models_config (doc : Doc) : List Record :=
  match parse_models_config_exc doc with
  | .ok ms => ms
  | .error _ => []

/-! ## The fetch loop `fetch_data` (lines 105-132)

The transport collaborator is modelled as an oracle giving, for each attempt
index, either a raised exception or a response (status-ok flag, presence of
the marker text `参数配置`, and the parsed document).
-/

/-- What `requests.get` produced on one attempt. -/
inductive FetchResult where
  /-- The request raised (timeout, network failure, ...). -/
  | exn : FetchResult
  /-- A response: `ok` status, whether the body contains the marker text,
  and the document BeautifulSoup would parse from the body. -/
  | resp (ok : Bool) (hasMarker : Bool) (doc : Doc) : FetchResult
  deriving DecidableEq

/-- Lines 122-123: `for model in results: model['ID'] = str(id)`. -/
def tag_records (id : Nat) (ms : List Record) : List Record :=
  ms.map (fun m => rset m "ID" (toString id))

/-- The generator `any(res["型号"] != "未知车型" for res in results)`:
short-circuits on the first non-sentinel name, raises `KeyError` if a record
lacking the key is reached first. -/
def anyNonSentinel : List Record → Except String Bool
  | [] => .ok false
  | r :: rs =>
    match rget r "型号" with
    | none => .error "KeyError: 型号"
    | some v => if v = "未知车型" then anyNonSentinel rs else .ok true

/-- The body of one iteration of the retry loop (lines 114-129).
`.ok (some results)` models `return id, results`; `.ok none` models falling
through to the next attempt (`continue`, or a rejected result); `.error`
models an exception caught by the `except` clause. -/
def attempt_once (id : Nat) (fr : FetchResult) : Except String (Option (List Record)) :=
  match fr with
  | .exn => .error "requests exception"
  | .resp ok hasMarker doc =>
    if !ok || !hasMarker then .ok none
    else
      let results := tag_records id (parse_models_config doc)
      if results.length > 0 then
        match anyNonSentinel results with
        | .error e => .error e
        | .ok true => .ok (some results)
        | .ok false => .ok none
      else .ok none

/-- The retry loop `for attempt in range(retry_times)`, by remaining
attempts; falls off the end with `none` (line 132: `return id, None`). -/
def fetch_data_aux (id : Nat) (oracle : Nat → FetchResult) (attempt : Nat) :
    Nat → Option (List Record)
  | 0 => none
  | rem + 1 =>
    match attempt_once id (oracle attempt) with
    | .ok (some results) => some results
    | _ => fetch_data_aux id oracle (attempt + 1) rem

/-- `fetch_data(id)` against a transport oracle: `(id, results | None)`. -/
def fetch_data (id : Nat) (oracle : Nat → FetchResult) : Nat × Option (List Record) :=
  (id, fetch_data_aux id oracle 0 retry_times)

/-- Line 130: `sleep(0.5 ** attempt)` — the backoff delay, in seconds. -/
def backoff_delay (attempt : Nat) : ℚ :=
  (1 / 2 : ℚ) ^ attempt

/-! ## Collector and write phase (`main`, lines 141-166) -/

/-- Line 154: `base_fields = ["ID", "型号", "价格", "能源类型"]`. -/
def base_fields : List String := ["ID", "型号", "价格", "能源类型"]

/-- Lines 142/150: `field_set = set()` grown by `field_set.update(model.keys())`
over every accumulated record. -/
def collect_field_set (recs : List Record) : Finset String :=
  recs.foldl (fun s m => s ∪ recKeys m) ∅

/-- Lines 155-156: `all_fields = base_fields + sorted(f for f in field_set
if f not in base_fields)`. -/
def compute_all_fields (field_set : Finset String) : List String :=
  base_fields ++ (field_set.filter (fun f => f ∉ base_fields)).sort (fun a b => a ≤ b)

/-- One written CSV file: header row and data rows. -/
structure CsvFile where
  header : List String
  rows : List Record
  deriving DecidableEq

/-- The output directory as a mapping from path to file content. -/
abbrev FileSystem := List (String × CsvFile)

/-- `open(path, 'w')` then write: replace the file if the path exists,
create it otherwise. -/
def fsWrite : FileSystem → String → CsvFile → FileSystem
  | [], path, content => [(path, content)]
  | e :: fs, path, content =>
    if e.1 = path then (path, content) :: fs else e :: fsWrite fs path content

/-- Look up a path in the written output. -/
def fsRead? : FileSystem → String → Option CsvFile
  | [], _ => none
  | e :: fs, path => if e.1 = path then some e.2 else fsRead? fs path

/-- Line 160: `ENERGY_TYPES.get(energy_type, "unknown")`. -/
def file_tag (energy_type : String) : String :=
  ((ENERGY_TYPES.find? (fun p => p.1 = energy_type)).map (fun p => p.2)).getD "unknown"

/-- Line 161: `os.path.join(output_dir, f"car_data_{file_tag}.csv")`
with `output_dir = "car_data"`. -/
def output_path (energy_type : String) : String :=
  "car_data" ++ "/" ++ ("car_data_" ++ file_tag energy_type ++ ".csv")

/-- Lines 159-166: write each energy bucket, in order, to its path in
overwrite mode, every file with the same `all_fields` header. -/
def write_phase (all_fields : List String) (buckets : List (String × List Record)) :
    FileSystem :=
  buckets.foldl (fun fs b => fsWrite fs (output_path b.1) ⟨all_fields, b.2⟩) []

/-! ## The ID set resolver `get_unique_ids` (lines 35-51)

A manifest row carries its `id` field (`none` models a row whose dict lacks
the key, raising a caught `KeyError`); an output-file row carries its `ID`
field (`none` models a row lacking the key, whose `KeyError` is NOT caught).
-/

/-- A row of the input manifest `car_rank_total.csv`. -/
structure ManifestRow where
  id? : Option String
  deriving DecidableEq

/-- A row of an existing output CSV. -/
structure OutRow where
  ID? : Option String
  deriving DecidableEq

/-- Lines 37-43: collect `int(row['id'])` over the manifest, silently
skipping rows where the key is missing or the value is not an integer. -/
def parse_manifest_ids (rows : List ManifestRow) : Finset Int :=
  rows.foldl
    (fun s r =>
      match r.id? with
      | none => s
      | some v =>
        match v.toInt? with
        | none => s
        | some n => insert n s) ∅

/-- Python `str.isdigit` on the strings at hand: nonempty and all digits. -/
def pyIsDigit (s : String) : Bool :=
  !s.isEmpty && s.data.all Char.isDigit

/-- `int(s)` for an all-digit string. -/
def digitsVal (s : String) : Int :=
  (s.data.foldl (fun n c => 10 * n + (c.toNat - 48)) 0 : Nat)

/-- Line 49, one file: `{int(row['ID']) for row in reader if row['ID'].isdigit()}`;
a row whose dict lacks `ID` raises an uncaught `KeyError`. -/
def read_done_ids_aux (acc : Finset Int) : List OutRow → Except String (Finset Int)
  | [] => .ok acc
  | r :: rs =>
    match r.ID? with
    | none => .error "KeyError: ID"
    | some v => read_done_ids_aux (if pyIsDigit v then insert (digitsVal v) acc else acc) rs

/-- Line 49: the set of done IDs recorded in one output file. -/
def read_done_ids (file : List OutRow) : Except String (Finset Int) :=
  read_done_ids_aux ∅ file

/-- Lines 45-50: subtract each output file's done set in turn. -/
def subtract_done (u : Finset Int) : List (List OutRow) → Except String (Finset Int)
  | [] => .ok u
  | f :: fs =>
    match read_done_ids f with
    | .error e => .error e
    | .ok done => subtract_done (u \ done) fs

/-- `get_unique_ids()`: manifest IDs minus every output file's done IDs,
sorted ascending (line 51), or the uncaught exception. -/
def get_unique_ids (manifest : List ManifestRow) (files : List (List OutRow)) :
    Except String (List Int) :=
  match subtract_done (parse_manifest_ids manifest) files with
  | .error e => .error e
  | .ok u => .ok (u.sort (fun a b => a ≤ b))

/-! ## Theorems -/

/-- The cleaning scan is a filter on characters. -/
theorem cleanChars_eq_filter (cs : List Char) :
    cleanChars cs = cs.filter (fun c => !isStrippedGlyph c) := by
  induction cs with
  | nil => rfl
  | cons c cs ih =>
    by_cases h : isStrippedGlyph c = true
    · simp [cleanChars, h, ih]
    · simp only [Bool.not_eq_true] at h
      simp [cleanChars, h, ih]

/-- C7: the glyph-stripping clean removes exactly the private-use-area icon
codepoints (U+E600..U+E6FF) and the bullet/circle/reference marks, keeping
every other character in order; in particular it cleans the example
`●Model X※` to `Model X`. -/
theorem glyph_stripping_exact :
    (∀ s : String, (clean_glyphs s).data =
      s.data.filter (fun c =>
        decide (¬ ((0xe600 ≤ c.toNat ∧ c.toNat ≤ 0xe6ff) ∨ c = '●' ∨ c = '○' ∨ c = '※')))) ∧
    clean_glyphs "●Model X※" = "Model X" := by
  constructor
  · intro s
    show cleanChars s.data = _
    rw [cleanChars_eq_filter]
    congr 1
    funext c
    have hiff : isStrippedGlyph c = true ↔
        ((0xe600 ≤ c.toNat ∧ c.toNat ≤ 0xe6ff) ∨ c = '●' ∨ c = '○' ∨ c = '※') := by
      simp [isStrippedGlyph, or_assoc]
    by_cases hP : ((0xe600 ≤ c.toNat ∧ c.toNat ≤ 0xe6ff) ∨ c = '●' ∨ c = '○' ∨ c = '※')
    · simp [hP, hiff.mpr hP]
    · have hfalse : isStrippedGlyph c = false := by
        rcases Bool.eq_false_or_eq_true (isStrippedGlyph c) with h | h
        · exact absurd (hiff.mp h) hP
        · exact h
      simp [hP, hfalse]
  · decide

/-- C8 counterexample: the delay slept after attempt 0 is `0.5 ** 0 = 1`
second and after attempt 1 it is `0.5 ** 1 = 1/2` second, so although
`0 < 1` the delay does NOT grow with the attempt index. -/
theorem backoff_growth_cex :
    (0 : Nat) < 1 ∧ ¬ (backoff_delay 0 < backoff_delay 1) := by
  refine ⟨by decide, ?_⟩
  show ¬ ((1 / 2 : ℚ) ^ 0 < (1 / 2 : ℚ) ^ 1)
  norm_num

/-- C8 (amended): within one call's retry loop, the backoff delay
`0.5 ** attempt` strictly DECREASES with the attempt index: for attempt
indices `i < j`, the delay slept after attempt `j` is strictly less than the
delay slept after attempt `i`. -/
theorem backoff_strictly_decreasing (i j : Nat) (hij : i < j) :
    backoff_delay j < backoff_delay i := by
  unfold backoff_delay
  exact pow_lt_pow_right_of_lt_one₀ (by norm_num) (by norm_num) hij

/-- Witness for `backoff_strictly_decreasing` at `i = 0`, `j = 1`. -/
theorem backoff_strictly_decreasing_witness :
    (0 : Nat) < 1 ∧ backoff_delay 1 < backoff_delay 0 :=
  ⟨by decide, backoff_strictly_decreasing 0 1 (by decide)⟩

/-- C5: the extractor never propagates an exception — any exception raised
inside the `try` body yields the empty list, and a document lacking a
detectable model-column header (no header element, or no model columns)
yields the empty list without raising. -/
theorem extractor_never_raises (doc : Doc) :
    ((doc.header? = none ∨ doc.header? = some []) → parse_models_config doc = []) ∧
    (∀ e, parse_models_config_exc doc = .error e → parse_models_config doc = []) := by
  constructor
  · rintro (h | h) <;> simp [parse_models_config, parse_models_config_exc, h]
  · intro e he
    simp [parse_models_config, he]

/-- Witness for `extractor_never_raises` on a header-less document. -/
theorem extractor_never_raises_witness :
    parse_models_config ⟨none, none, []⟩ = [] :=
  (extractor_never_raises ⟨none, none, []⟩).1 (Or.inl rfl)

@[simp] theorem length_seedModels (cols : List ModelCol) :
    (seedModels cols).length = cols.length := by
  simp [seedModels]

@[simp] theorem length_applyPrices (ms : List Record) (cs : List String) :
    (applyPrices ms cs).length = ms.length := by
  induction ms generalizing cs with
  | nil => cases cs <;> rfl
  | cons m ms ih =>
    cases cs with
    | nil => rfl
    | cons c cs => simp [applyPrices, ih]

@[simp] theorem length_applyRowCells (label : String) (ms : List Record) (cs : List String) :
    (applyRowCells label ms cs).length = ms.length := by
  induction ms generalizing cs with
  | nil => cases cs <;> rfl
  | cons m ms ih =>
    cases cs with
    | nil => rfl
    | cons c cs => simp [applyRowCells, ih]

theorem length_applyRows (rows : List AttrRow) (ms ms' : List Record)
    (h : applyRows ms rows = .ok ms') : ms'.length = ms.length := by
  induction rows generalizing ms with
  | nil => simp [applyRows] at h; simp [h]
  | cons row rest ih =>
    unfold applyRows at h
    cases hl : row.labelText? with
    | none => rw [hl] at h; exact absurd h (by simp)
    | some label =>
      rw [hl] at h
      have := ih _ h
      simpa using this

theorem length_applySections (ss : List TableSection) (ms ms' : List Record)
    (h : applySections ms ss = .ok ms') : ms'.length = ms.length := by
  induction ss generalizing ms with
  | nil => simp [applySections] at h; simp [h]
  | cons s rest ih =>
    unfold applySections at h
    cases hr : applyRows ms s.rows with
    | error e => rw [hr] at h; exact absurd h (by simp)
    | ok ms₁ =>
      rw [hr] at h
      rw [ih _ h, length_applyRows s.rows ms ms₁ hr]

/-- When the `try` body succeeds on a document with a detected header, the
record count equals the model-column count. -/
theorem parse_exc_ok_length (doc : Doc) (cols : List ModelCol) (ms : List Record)
    (hh : doc.header? = some cols) (hok : parse_models_config_exc doc = .ok ms) :
    ms.length = cols.length := by
  unfold parse_models_config_exc at hok
  rw [hh] at hok
  dsimp only at hok
  by_cases hc : cols.isEmpty
  · rw [if_pos hc] at hok
    have : ms = [] := by cases hok; rfl
    subst this
    cases cols with
    | nil => rfl
    | cons c cs => simp [List.isEmpty] at hc
  · rw [if_neg hc] at hok
    cases hp : (match doc.price? with
      | none => Except.ok (seedModels cols)
      | some pi =>
        match pi.parentCells? with
        | none => Except.error "AttributeError: NoneType has no attribute select"
        | some cells => Except.ok (applyPrices (seedModels cols) cells)) with
    | error e => rw [hp] at hok; exact absurd hok (by simp)
    | ok ms₁ =>
      rw [hp] at hok
      dsimp only at hok
      have hms₁ : ms₁.length = cols.length := by
        cases hpr : doc.price? with
        | none =>
          rw [hpr] at hp
          cases hp
          simp
        | some pi =>
          rw [hpr] at hp
          dsimp only at hp
          cases hpc : pi.parentCells? with
          | none => rw [hpc] at hp; exact absurd hp (by simp)
          | some cells =>
            rw [hpc] at hp
            cases hp
            simp
      cases hs : applySections ms₁ doc.sections with
      | error e => rw [hs] at hok; exact absurd hok (by simp)
      | ok ms₂ =>
        rw [hs] at hok
        have : ms = ms₂.map normalize_record := by cases hok; rfl
        subst this
        rw [List.length_map, length_applySections doc.sections ms₁ ms₂ hs, hms₁]

/-- C1: the extractor returns either the empty list or exactly one record
per discovered model column; in particular, whenever the header is detected
with `K` model columns and the `try` body raises no exception, exactly `K`
records are returned. -/
theorem extractor_length (doc : Doc) :
    (parse_models_config doc = [] ∨
      ∃ cols, doc.header? = some cols ∧ (parse_models_config doc).length = cols.length) ∧
    (∀ cols ms, doc.header? = some cols → parse_models_config_exc doc = .ok ms →
      ms.length = cols.length) := by
  constructor
  · cases hexc : parse_models_config_exc doc with
    | error e => left; simp [parse_models_config, hexc]
    | ok ms =>
      cases hh : doc.header? with
      | none =>
        left
        have : ms = [] := by
          unfold parse_models_config_exc at hexc
          rw [hh] at hexc
          cases hexc; rfl
        simp [parse_models_config, hexc, this]
      | some cols =>
        right
        exact ⟨cols, rfl, by
          simp only [parse_models_config, hexc]
          exact parse_exc_ok_length doc cols ms hh hexc⟩
  · intro cols ms hh hok
    exact parse_exc_ok_length doc cols ms hh hok

/-- Witness for `extractor_length` on a two-column document. -/
theorem extractor_length_witness :
    (parse_models_config ⟨some [⟨some "A"⟩, ⟨none⟩], none, []⟩).length = 2 :=
  (extractor_length ⟨some [⟨some "A"⟩, ⟨none⟩], none, []⟩).2 [⟨some "A"⟩, ⟨none⟩]
    (parse_models_config ⟨some [⟨some "A"⟩, ⟨none⟩], none, []⟩) rfl (by rfl)

/-- Folding the fill-in step over fields never touches a key outside them. -/
theorem rget_fill_not_mem (fields : List String) (m : Record) (k : String)
    (hk : k ∉ fields) :
    rget (fields.foldl (fun acc field => rset acc field (rgetD acc field "N/A")) m) k
      = rget m k := by
  induction fields generalizing m with
  | nil => rfl
  | cons f fs ih =>
    have hkf : k ≠ f := fun h => hk (h ▸ List.mem_cons_self f fs)
    have hkfs : k ∉ fs := fun h => hk (List.mem_cons_of_mem f h)
    simp only [List.foldl_cons]
    rw [ih _ hkfs, rget_rset_ne _ _ _ _ hkf]

/-- Folding the fill-in step over duplicate-free fields makes each field
present, with its old value or the sentinel. -/
theorem rget_fill_mem (fields : List String) (hnd : fields.Nodup) (m : Record)
    (f : String) (hf : f ∈ fields) :
    rget (fields.foldl (fun acc field => rset acc field (rgetD acc field "N/A")) m) f
      = some (rgetD m f "N/A") := by
  induction fields generalizing m with
  | nil => exact absurd hf (List.not_mem_nil f)
  | cons f₀ fs ih =>
    simp only [List.foldl_cons]
    rcases List.mem_cons.mp hf with heq | hmem
    · subst heq
      have hnot : f ∉ fs := (List.nodup_cons.mp hnd).1
      rw [rget_fill_not_mem fs _ f hnot, rget_rset_self]
    · have hne : f ≠ f₀ := fun h => (List.nodup_cons.mp hnd).1 (h ▸ hmem)
      rw [ih (List.nodup_cons.mp hnd).2 _ hmem]
      unfold rgetD
      rw [rget_rset_ne _ _ _ _ hne]

/-- C2: for a record whose energy-type value is a key of `ENERGY_TYPE_MAP`,
normalization makes every catalog key for that type present — keeping its
extracted value, or the sentinel `N/A` when it was absent — and leaves every
key outside the catalog list untouched. -/
theorem normalization_completeness (m : Record)
    (ht : rgetD m "能源类型" "N/A" ∈ ENERGY_TYPE_MAP.map (fun p => p.1)) :
    (∀ f ∈ get_energy_specific_fields (rgetD m "能源类型" "N/A"),
        rget (normalize_record m) f = some (rgetD m f "N/A")) ∧
    (∀ k, k ∉ get_energy_specific_fields (rgetD m "能源类型" "N/A") →
        rget (normalize_record m) k = rget m k) := by
  have hnd : (get_energy_specific_fields (rgetD m "能源类型" "N/A")).Nodup := by
    have : rgetD m "能源类型" "N/A" = "纯电" ∨ rgetD m "能源类型" "N/A" = "汽油" ∨
        rgetD m "能源类型" "N/A" = "油电混合" ∨ rgetD m "能源类型" "N/A" = "插电式" ∨
        rgetD m "能源类型" "N/A" = "增程式" := by
      simpa [ENERGY_TYPE_MAP] using ht
    rcases this with h | h | h | h | h <;> rw [h] <;> decide
  constructor
  · intro f hf
    exact rget_fill_mem _ hnd m f hf
  · intro k hk
    exact rget_fill_not_mem _ m k hk

/-- Witness for `normalization_completeness` on a pure-electric record with
one extracted catalog field: the missing catalog key gets the sentinel, the
extracted one keeps its value, and a non-catalog key is untouched. -/
theorem normalization_completeness_witness :
    rget (normalize_record [("能源类型", "纯电"), ("battery_capacity", "77")])
        "cltc_recharge_mileage" = some "N/A" :=
  (normalization_completeness [("能源类型", "纯电"), ("battery_capacity", "77")]
      (by decide)).1 "cltc_recharge_mileage" (by decide)

theorem mem_foldl_union (recs : List Record) (s0 : Finset String) (x : String) :
    x ∈ recs.foldl (fun s m => s ∪ recKeys m) s0 ↔
      x ∈ s0 ∨ ∃ m ∈ recs, x ∈ recKeys m := by
  induction recs generalizing s0 with
  | nil => simp
  | cons m ms ih =>
    simp only [List.foldl_cons, ih, Finset.mem_union, List.mem_cons]
    constructor
    · rintro ((h | h) | ⟨m', hm', hx⟩)
      · exact Or.inl h
      · exact Or.inr ⟨m, Or.inl rfl, h⟩
      · exact Or.inr ⟨m', Or.inr hm', hx⟩
    · rintro (h | ⟨m', (rfl | hm'), hx⟩)
      · exact Or.inl (Or.inl h)
      · exact Or.inl (Or.inr hx)
      · exact Or.inr ⟨m', hm', hx⟩

theorem mem_collect_field_set (recs : List Record) (x : String) :
    x ∈ collect_field_set recs ↔ ∃ m ∈ recs, x ∈ recKeys m := by
  unfold collect_field_set
  simpa using mem_foldl_union recs ∅ x

/-- The global field set depends only on which records were accumulated,
not on their arrival order. -/
theorem collect_field_set_perm (recs recs' : List Record) (h : recs.Perm recs') :
    collect_field_set recs = collect_field_set recs' := by
  ext x
  rw [mem_collect_field_set, mem_collect_field_set]
  constructor
  · rintro ⟨m, hm, hx⟩
    exact ⟨m, h.mem_iff.mp hm, hx⟩
  · rintro ⟨m, hm, hx⟩
    exact ⟨m, h.mem_iff.mpr hm, hx⟩

theorem fsWrite_headers (af : List String) (fs : FileSystem) (path : String)
    (content : CsvFile) (hfs : ∀ e ∈ fs, e.2.header = af) (hc : content.header = af) :
    ∀ e ∈ fsWrite fs path content, e.2.header = af := by
  induction fs with
  | nil =>
    intro e he
    rcases List.mem_singleton.mp he with rfl
    exact hc
  | cons e0 fs ih =>
    intro e he
    unfold fsWrite at he
    by_cases h : e0.1 = path
    · rw [if_pos h] at he
      rcases List.mem_cons.mp he with rfl | hmem
      · exact hc
      · exact hfs e (List.mem_cons_of_mem e0 hmem)
    · rw [if_neg h] at he
      rcases List.mem_cons.mp he with heq | hmem
      · subst heq
        exact hfs _ (List.mem_cons_self _ fs)
      · exact ih (fun x hx => hfs x (List.mem_cons_of_mem _ hx)) e hmem

theorem write_phase_headers_aux (af : List String) (buckets : List (String × List Record))
    (fs : FileSystem) (hfs : ∀ e ∈ fs, e.2.header = af) :
    ∀ e ∈ buckets.foldl (fun fs b => fsWrite fs (output_path b.1) ⟨af, b.2⟩) fs,
      e.2.header = af := by
  induction buckets generalizing fs with
  | nil => exact hfs
  | cons b bs ih =>
    simp only [List.foldl_cons]
    exact ih _ (fsWrite_headers af fs (output_path b.1) ⟨af, b.2⟩ hfs rfl)

/-- Every file written by the write phase carries the run's single schema. -/
theorem write_phase_headers (af : List String) (buckets : List (String × List Record)) :
    ∀ e ∈ write_phase af buckets, e.2.header = af :=
  write_phase_headers_aux af buckets [] (by intro e he; exact absurd he (List.not_mem_nil e))

/-- C3: the output column order is the fixed identity list followed by the
alphabetically sorted remaining observed field names, it is identical for
any two arrival orders of the same records, and every file written in the
run carries this same schema as its header. -/
theorem column_schema_determinism (recs recs' : List Record) (hperm : recs.Perm recs')
    (buckets : List (String × List Record)) :
    compute_all_fields (collect_field_set recs)
        = compute_all_fields (collect_field_set recs') ∧
    (∃ rest, compute_all_fields (collect_field_set recs) = base_fields ++ rest ∧
      rest.Sorted (fun a b => a ≤ b) ∧
      (∀ x, x ∈ rest ↔ x ∈ collect_field_set recs ∧ x ∉ base_fields)) ∧
    (∀ entry ∈ write_phase (compute_all_fields (collect_field_set recs)) buckets,
      entry.2.header = compute_all_fields (collect_field_set recs)) := by
  refine ⟨by rw [collect_field_set_perm recs recs' hperm], ?_, write_phase_headers _ _⟩
  refine ⟨_, rfl, Finset.sort_sorted _ _, ?_⟩
  intro x
  rw [Finset.mem_sort, Finset.mem_filter]

/-- Witness for `column_schema_determinism`: two records arriving in either
order give the same schema. -/
theorem column_schema_determinism_witness :
    compute_all_fields (collect_field_set [[("b", "2")], [("a", "1")]]) =
      compute_all_fields (collect_field_set [[("a", "1")], [("b", "2")]]) :=
  (column_schema_determinism _ _ (List.Perm.swap _ _ _) []).1

/-- Whether an `Except` carries a value. -/
def exceptIsOk {α : Type} (x : Except String α) : Bool :=
  match x with
  | .ok _ => true
  | .error _ => false

/-- The union of the done-ID sets of all output files — the set `D` of IDs
already recorded, however its records are distributed across files. -/
def filesDone (files : List (List OutRow)) : Finset Int :=
  files.foldl (fun s f => s ∪ ((read_done_ids f).toOption.getD ∅)) ∅

theorem foldl_union_eq_init_union (fs : List (List OutRow)) (s : Finset Int) :
    fs.foldl (fun s f => s ∪ ((read_done_ids f).toOption.getD ∅)) s =
      s ∪ fs.foldl (fun s f => s ∪ ((read_done_ids f).toOption.getD ∅)) ∅ := by
  induction fs generalizing s with
  | nil => simp
  | cons f fs ih =>
    simp only [List.foldl_cons]
    rw [ih (s ∪ _), ih (∅ ∪ _), Finset.empty_union, Finset.union_assoc]

theorem filesDone_cons (f : List OutRow) (fs : List (List OutRow)) :
    filesDone (f :: fs) = ((read_done_ids f).toOption.getD ∅) ∪ filesDone fs := by
  unfold filesDone
  simp only [List.foldl_cons, Finset.empty_union]
  exact foldl_union_eq_init_union fs _

theorem subtract_done_eq (files : List (List OutRow)) (u : Finset Int)
    (hok : ∀ f ∈ files, exceptIsOk (read_done_ids f) = true) :
    subtract_done u files = .ok (u \ filesDone files) := by
  induction files generalizing u with
  | nil => simp [subtract_done, filesDone]
  | cons f fs ih =>
    have hf := hok f (List.mem_cons_self f fs)
    cases hr : read_done_ids f with
    | error e => rw [hr] at hf; simp [exceptIsOk] at hf
    | ok d =>
      unfold subtract_done
      rw [hr]
      dsimp only
      rw [ih _ (fun g hg => hok g (List.mem_cons_of_mem f hg))]
      congr 1
      rw [filesDone_cons, hr]
      ext x
      simp only [Except.toOption, Option.getD_some, Finset.mem_sdiff, Finset.mem_union]
      tauto

/-- C4: when every existing output file reads back cleanly, the resolver
returns exactly the manifest set minus the union of the files' done sets,
sorted ascending — and so the result is the same for any two output layouts
recording the same done set. -/
theorem resumption (manifest : List ManifestRow) (files : List (List OutRow))
    (hok : ∀ f ∈ files, exceptIsOk (read_done_ids f) = true) :
    get_unique_ids manifest files =
      .ok ((parse_manifest_ids manifest \ filesDone files).sort (fun a b => a ≤ b)) ∧
    (∀ files', (∀ f ∈ files', exceptIsOk (read_done_ids f) = true) →
      filesDone files' = filesDone files →
      get_unique_ids manifest files' = get_unique_ids manifest files) := by
  constructor
  · unfold get_unique_ids
    rw [subtract_done_eq files _ hok]
  · intro files' hok' hD
    unfold get_unique_ids
    rw [subtract_done_eq files _ hok, subtract_done_eq files' _ hok', hD]

/-- Witness for `resumption`: manifest `{1, 2, 3}` with ID 2 already done. -/
theorem resumption_witness :
    get_unique_ids [⟨some "1"⟩, ⟨some "2"⟩, ⟨some "3"⟩] [[⟨some "2"⟩]] =
      .ok ((parse_manifest_ids [⟨some "1"⟩, ⟨some "2"⟩, ⟨some "3"⟩] \
        filesDone [[⟨some "2"⟩]]).sort (fun a b => a ≤ b)) :=
  (resumption [⟨some "1"⟩, ⟨some "2"⟩, ⟨some "3"⟩] [[⟨some "2"⟩]] (by decide)).1

theorem read_done_ids_aux_error (file : List OutRow) (acc : Finset Int)
    (h : ∃ r ∈ file, r.ID? = none) :
    ∃ e, read_done_ids_aux acc file = .error e := by
  induction file generalizing acc with
  | nil =>
    rcases h with ⟨r, hr, _⟩
    exact absurd hr (List.not_mem_nil r)
  | cons r rs ih =>
    cases hr : r.ID? with
    | none => exact ⟨"KeyError: ID", by simp [read_done_ids_aux, hr]⟩
    | some v =>
      rcases h with ⟨r', hr', hnone⟩
      rcases List.mem_cons.mp hr' with rfl | hmem
      · rw [hr] at hnone
        exact absurd hnone (by simp)
      · have hrec := ih (if pyIsDigit v then insert (digitsVal v) acc else acc) ⟨r', hmem, hnone⟩
        simpa [read_done_ids_aux, hr] using hrec

theorem subtract_done_error (files : List (List OutRow)) (u : Finset Int)
    (h : ∃ f ∈ files, ∃ r ∈ f, r.ID? = none) :
    ∃ e, subtract_done u files = .error e := by
  induction files generalizing u with
  | nil =>
    rcases h with ⟨f, hf, _⟩
    exact absurd hf (List.not_mem_nil f)
  | cons f fs ih =>
    cases hr : read_done_ids f with
    | error e => exact ⟨e, by simp [subtract_done, hr]⟩
    | ok d =>
      rcases h with ⟨f', hf', hbad⟩
      rcases List.mem_cons.mp hf' with rfl | hmem
      · rcases read_done_ids_aux_error f' ∅ hbad with ⟨e, he⟩
        rw [show read_done_ids f' = read_done_ids_aux ∅ f' from rfl, he] at hr
        exact absurd hr (by simp)
      · have hrec := ih (u \ d) ⟨f', hmem, hbad⟩
        simpa [subtract_done, hr] using hrec

/-- C10: an output file containing a row whose dict lacks the `ID` key makes
`get_unique_ids` raise an uncaught `KeyError` instead of skipping the file,
so the run aborts before any fetching starts. -/
theorem resolver_keyerror (manifest : List ManifestRow) (files : List (List OutRow))
    (file : List OutRow) (row : OutRow) (hf : file ∈ files) (hr : row ∈ file)
    (hnone : row.ID? = none) :
    ∃ e, get_unique_ids manifest files = .error e := by
  rcases subtract_done_error files (parse_manifest_ids manifest)
      ⟨file, hf, row, hr, hnone⟩ with ⟨e, he⟩
  exact ⟨e, by simp [get_unique_ids, he]⟩

/-- Witness for `resolver_keyerror`: one output file with a row lacking `ID`. -/
theorem resolver_keyerror_witness :
    ∃ e, get_unique_ids [⟨some "7"⟩] [[⟨some "1"⟩, ⟨none⟩]] = .error e :=
  resolver_keyerror [⟨some "7"⟩] [[⟨some "1"⟩, ⟨none⟩]] [⟨some "1"⟩, ⟨none⟩] ⟨none⟩
    (by simp) (by simp) rfl

@[simp] theorem fsRead?_fsWrite_self (fs : FileSystem) (p : String) (c : CsvFile) :
    fsRead? (fsWrite fs p c) p = some c := by
  induction fs with
  | nil => simp [fsWrite, fsRead?]
  | cons e fs ih =>
    by_cases h : e.1 = p
    · simp [fsWrite, fsRead?, h]
    · simp [fsWrite, fsRead?, h, ih]

@[simp] theorem fsRead?_fsWrite_ne (fs : FileSystem) (p q : String) (c : CsvFile)
    (h : q ≠ p) : fsRead? (fsWrite fs p c) q = fsRead? fs q := by
  have h' : ¬ (p = q) := fun hh => h hh.symm
  induction fs with
  | nil => simp [fsWrite, fsRead?, h']
  | cons e fs ih =>
    by_cases he : e.1 = p
    · have he' : ¬ (e.1 = q) := by rw [he]; exact h'
      rw [fsWrite, if_pos he, fsRead?, if_neg h', fsRead?, if_neg he']
    · by_cases heq : e.1 = q
      · rw [fsWrite, if_neg he, fsRead?, if_pos heq, fsRead?, if_pos heq]
      · rw [fsWrite, if_neg he, fsRead?, if_neg heq, fsRead?, if_neg heq, ih]

theorem find?_append_cases {α : Type} (l1 l2 : List α) (q : α → Bool) :
    (l1 ++ l2).find? q =
      match l1.find? q with
      | some x => some x
      | none => l2.find? q := by
  induction l1 with
  | nil => rfl
  | cons x l1 ih =>
    by_cases hx : q x
    · simp [List.find?, hx]
    · simp only [Bool.not_eq_true] at hx
      simp [List.find?, hx, ih]

/-- Last write wins: reading a path after the write phase yields the data of
the last bucket whose label maps to that path (searched via the reversed
bucket list), or nothing. -/
theorem write_phase_last_write (af : List String) (bs : List (String × List Record))
    (fs : FileSystem) (p : String) :
    fsRead? (bs.foldl (fun fs b => fsWrite fs (output_path b.1) ⟨af, b.2⟩) fs) p =
      match bs.reverse.find? (fun b => output_path b.1 = p) with
      | some b => some ⟨af, b.2⟩
      | none => fsRead? fs p := by
  induction bs generalizing fs with
  | nil => rfl
  | cons b bs ih =>
    simp only [List.foldl_cons, List.reverse_cons]
    rw [ih, find?_append_cases]
    cases hf : bs.reverse.find? (fun b => output_path b.1 = p) with
    | some b' => rfl
    | none =>
      by_cases hb : output_path b.1 = p
      · subst hb
        simp [List.find?]
      · simp [List.find?, hb, fsRead?_fsWrite_ne _ _ _ _ (fun hh => hb hh.symm)]

/-- C9: any two distinct energy-type labels absent from `ENERGY_TYPES` share
the single output path `car_data/car_data_unknown.csv`; when the write loop
writes the bucket of one and later the bucket of the other (with no later
bucket mapping to that path), only the later bucket's records end up in the
file — the earlier unrecognized bucket's records are lost. -/
theorem unknown_bucket_overwrite (t1 t2 : String) (d1 d2 : List Record) (af : List String)
    (l1 l2 l3 : List (String × List Record))
    (h1 : t1 ∉ ENERGY_TYPES.map (fun p => p.1))
    (h2 : t2 ∉ ENERGY_TYPES.map (fun p => p.1))
    (hl3 : ∀ b ∈ l3, output_path b.1 ≠ "car_data/car_data_unknown.csv") :
    output_path t1 = "car_data/car_data_unknown.csv" ∧
    output_path t2 = output_path t1 ∧
    fsRead? (write_phase af (l1 ++ [(t1, d1)] ++ l2 ++ [(t2, d2)] ++ l3))
        (output_path t1) = some ⟨af, d2⟩ := by
  have hfind : ∀ t, t ∉ ENERGY_TYPES.map (fun p => p.1) →
      ENERGY_TYPES.find? (fun p => p.1 = t) = none := by
    intro t ht
    rw [List.find?_eq_none]
    intro p hp
    simp only [decide_eq_true_eq]
    intro hpt
    exact ht (List.mem_map.mpr ⟨p, hp, hpt⟩)
  have hp1 : output_path t1 = "car_data/car_data_unknown.csv" := by
    unfold output_path file_tag
    rw [hfind t1 h1]
    rfl
  have hp2 : output_path t2 = "car_data/car_data_unknown.csv" := by
    unfold output_path file_tag
    rw [hfind t2 h2]
    rfl
  refine ⟨hp1, by rw [hp2, hp1], ?_⟩
  unfold write_phase
  rw [write_phase_last_write, hp1]
  have hrev : (l1 ++ [(t1, d1)] ++ l2 ++ [(t2, d2)] ++ l3).reverse =
      l3.reverse ++ ((t2, d2) :: (l2.reverse ++ ((t1, d1) :: l1.reverse))) := by
    simp [List.reverse_append]
  rw [hrev, find?_append_cases]
  have hl3none : l3.reverse.find?
      (fun b => output_path b.1 = "car_data/car_data_unknown.csv") = none := by
    rw [List.find?_eq_none]
    intro b hb
    simp only [decide_eq_true_eq]
    exact hl3 b (List.mem_reverse.mp hb)
  rw [hl3none]
  simp [List.find?, hp2]

/-- Witness for `unknown_bucket_overwrite` on two labels outside the map. -/
theorem unknown_bucket_overwrite_witness :
    fsRead? (write_phase ["ID"] [("氢燃料", [[("a", "1")]]), ("甲醇", [[("b", "2")]])])
        (output_path "氢燃料") = some ⟨["ID"], [[("b", "2")]]⟩ := by
  have h := unknown_bucket_overwrite "氢燃料" "甲醇" [[("a", "1")]] [[("b", "2")]] ["ID"]
    [] [] [] (by decide) (by decide) (by intro b hb; exact absurd hb (List.not_mem_nil b))
  simpa using h.2.2

/-- Whether one retry attempt ended in `return id, results`. -/
def attemptOk (x : Except String (Option (List Record))) : Bool :=
  match x with
  | .ok (some _) => true
  | _ => false

theorem anyNonSentinel_true (rs : List Record) (h : anyNonSentinel rs = .ok true) :
    ∃ r ∈ rs, ∃ v, rget r "型号" = some v ∧ v ≠ "未知车型" := by
  induction rs with
  | nil => exact absurd h (by simp [anyNonSentinel])
  | cons r rs ih =>
    unfold anyNonSentinel at h
    cases hg : rget r "型号" with
    | none => rw [hg] at h; exact absurd h (by simp)
    | some v =>
      rw [hg] at h
      dsimp only at h
      by_cases hv : v = "未知车型"
      · rw [if_pos hv] at h
        rcases ih h with ⟨r', hr', hx⟩
        exact ⟨r', List.mem_cons_of_mem r hr', hx⟩
      · exact ⟨r, List.mem_cons_self r rs, v, hg, hv⟩

theorem attempt_once_accepts (id : Nat) (fr : FetchResult) (ms : List Record)
    (h : attempt_once id fr = .ok (some ms)) :
    ms.length > 0 ∧ ∃ r ∈ ms, ∃ v, rget r "型号" = some v ∧ v ≠ "未知车型" := by
  cases fr with
  | exn => exact absurd h (by simp [attempt_once])
  | resp ok hasMarker doc =>
    unfold attempt_once at h
    dsimp only at h
    by_cases hb : (!ok || !hasMarker) = true
    · rw [if_pos hb] at h
      exact absurd h (by simp)
    · rw [if_neg hb] at h
      by_cases hlen : (tag_records id (parse_models_config doc)).length > 0
      · rw [if_pos hlen] at h
        cases hany : anyNonSentinel (tag_records id (parse_models_config doc)) with
        | error e => rw [hany] at h; exact absurd h (by simp)
        | ok b =>
          rw [hany] at h
          cases b with
          | true =>
            dsimp only at h
            have hms : ms = tag_records id (parse_models_config doc) := by
              cases h; rfl
            subst hms
            exact ⟨hlen, anyNonSentinel_true _ hany⟩
          | false =>
            dsimp only at h
            exact absurd h (by simp)
      · rw [if_neg hlen] at h
        exact absurd h (by simp)

theorem fetch_data_aux_some (id : Nat) (oracle : Nat → FetchResult) (ms : List Record) :
    ∀ rem att, fetch_data_aux id oracle att rem = some ms →
      ∃ a, attempt_once id (oracle a) = .ok (some ms) := by
  intro rem
  induction rem with
  | zero =>
    intro att h
    exact absurd h (by simp [fetch_data_aux])
  | succ rem ih =>
    intro att h
    unfold fetch_data_aux at h
    cases ha : attempt_once id (oracle att) with
    | error e =>
      rw [ha] at h
      dsimp only at h
      exact ih _ h
    | ok o =>
      cases o with
      | some results =>
        rw [ha] at h
        dsimp only at h
        cases h
        exact ⟨att, ha⟩
      | none =>
        rw [ha] at h
        dsimp only at h
        exact ih _ h

theorem fetch_data_aux_none (id : Nat) (oracle : Nat → FetchResult) :
    ∀ rem att, (∀ a, att ≤ a → a < att + rem →
        attemptOk (attempt_once id (oracle a)) = false) →
      fetch_data_aux id oracle att rem = none := by
  intro rem
  induction rem with
  | zero => intro att _; rfl
  | succ rem ih =>
    intro att h
    have hatt := h att (le_refl att) (by omega)
    unfold fetch_data_aux
    cases ha : attempt_once id (oracle att) with
    | error e =>
      dsimp only
      exact ih (att + 1) (fun a ha1 ha2 => h a (by omega) (by omega))
    | ok o =>
      cases o with
      | some results =>
        rw [ha] at hatt
        simp [attemptOk] at hatt
      | none =>
        dsimp only
        exact ih (att + 1) (fun a ha1 ha2 => h a (by omega) (by omega))

/-- C6: `fetch_data` returns records for an ID only when the extraction
result is non-empty with at least one non-sentinel model name (checked after
tagging); when every attempt within the retry bound fails that test, it
returns `none` for the ID instead of raising. -/
theorem fetch_accepts_only_valid (id : Nat) (oracle : Nat → FetchResult) :
    (∀ ms, (fetch_data id oracle).2 = some ms →
      ms.length > 0 ∧ ∃ r ∈ ms, ∃ v, rget r "型号" = some v ∧ v ≠ "未知车型") ∧
    ((∀ a, a < retry_times → attemptOk (attempt_once id (oracle a)) = false) →
      (fetch_data id oracle).2 = none) := by
  constructor
  · intro ms h
    rcases fetch_data_aux_some id oracle ms retry_times 0 h with ⟨a, ha⟩
    exact attempt_once_accepts id (oracle a) ms ha
  · intro h
    exact fetch_data_aux_none id oracle retry_times 0
      (fun a _ ha2 => h a (by simpa using ha2))

/-- Witness for `fetch_accepts_only_valid`: a transport that raises on every
attempt exhausts the retries and yields `none`. -/
theorem fetch_accepts_only_valid_witness :
    (fetch_data 42 (fun _ => FetchResult.exn)).2 = none :=
  (fetch_accepts_only_valid 42 (fun _ => FetchResult.exn)).2 (by decide)

end CarAns
